import Mathlib

/-!
Shallow embedding of `collect.ts` from the gemini-prompts repository.

The script is a sequential batch job: it enumerates `v0.*` tags of an
external repository, and for each tag that is not yet recorded in the
tracking repository's commit history it checks the tag out, copies two
fixed source files into the tracking repository, and commits the result.

The embedding models the ambient filesystem and git state explicitly:

* a working tree is a finite map from relative paths to file contents,
  represented as an association list (`Fs`);
* the external (gemini) repository is a function from tag to the working
  tree contents at that tag, plus an oracle saying which checkouts fail;
* the tracking repository is its working tree, its commit list (newest
  first, each commit carrying its message and the snapshot of the tree it
  recorded), and a flag modelling failure of the `git log` query (for
  example when the repository has no commits yet);
* every externally visible git operation performed by a run is recorded
  in a trace of `Act`ions, so that claims of the form "no checkout, no
  extraction, no commit happens" are statements about the trace.

Paths are kept relative to the respective repository roots: the script
joins them with the constant roots `GEMINI_REPO_PATH` and
`COLLECTION_REPO_PATH`, which adds no information to the model.
-/

/-- A working tree: a finite map from relative path to file content,
as an association list with at most one binding per key when built by
`fsWrite` from a canonical state. -/
def Fs : Type := List (String × String)

instance : DecidableEq Fs := by
  unfold Fs
  infer_instance

instance : Inhabited Fs := ⟨([] : List (String × String))⟩

/-- Read a file: the content bound to the first occurrence of the path,
`none` when the path is absent (models `fs.access`/`fs.readFile` failing). -/
def fsLookup (fs : Fs) (p : String) : Option String :=
  match fs with
  | [] => none
  | (q, d) :: rest => if q = p then some d else fsLookup rest p

/-- Write a file, overwriting the binding in place when present
(models `fs.writeFile` after `fs.mkdir` of the parent directory). -/
def fsWrite (fs : Fs) (p : String) (c : String) : Fs :=
  match fs with
  | [] => [(p, c)]
  | (q, d) :: rest => if q = p then (p, c) :: rest else (q, d) :: fsWrite rest p c

theorem fsLookup_fsWrite (fs : Fs) (p q c : String) :
    fsLookup (fsWrite fs p c) q = if q = p then some c else fsLookup fs q := by
  induction fs with
  | nil =>
    by_cases h : q = p
    · simp [fsWrite, fsLookup, h]
    · simp [fsWrite, fsLookup, h, Ne.symm h]
  | cons e rest ih =>
    obtain ⟨r, d⟩ := e
    by_cases hrp : r = p
    · subst hrp
      by_cases hq : q = r
      · simp [fsWrite, fsLookup, hq]
      · simp [fsWrite, fsLookup, hq, Ne.symm hq]
    · by_cases hq : q = r
      · subst hq
        simp [fsWrite, fsLookup, hrp, Ne.symm hrp]
      · simp [fsWrite, fsLookup, hrp, hq, Ne.symm hq, ih]

/-- Does the second character list start with the first?  Used to model
`String.prototype.startsWith`. -/
def listLeads : List Char → List Char → Bool
  | [], _ => true
  | _ :: _, [] => false
  | p :: ps, c :: cs => p = c && listLeads ps cs

/-- `s.startsWith(pre)` from JavaScript. -/
def strStartsWith (s pre : String) : Bool :=
  listLeads pre.data s.data

/-- Split a character list on a separator character; always returns at
least one (possibly empty) piece. -/
def splitOnChar (sep : Char) : List Char → List (List Char)
  | [] => [[]]
  | c :: cs =>
    let r := splitOnChar sep cs
    if c = sep then [] :: r
    else
      match r with
      | [] => [[c]]
      | l :: ls => (c :: l) :: ls

/-- The lines of a string: split on the newline character (the way both
`git log --grep` treats a commit message and `String.prototype.split`
behaves for a one-character separator). -/
def strLines (s : String) : List String :=
  (splitOnChar '\n' s.data).map (fun l => String.mk l)

/-- JavaScript `s.split('=')`. -/
def splitEq (s : String) : List String :=
  (splitOnChar '=' s.data).map (fun l => String.mk l)

/-- `interface SourceFile` from collect.ts. -/
structure SourceFile where
  sourcePath : String
  targetPath : String
  name : String
deriving DecidableEq, Repr

/-- The `SOURCE_FILES` constant from collect.ts. -/
def SOURCE_FILES : List SourceFile :=
  [ { sourcePath := "packages/core/src/core/prompts.ts",
      targetPath := "prompts/prompts.ts",
      name := "Core prompts" },
    { sourcePath := "packages/core/src/tools/tool-registry.ts",
      targetPath := "tools/tool-registry.ts",
      name := "Tool registry" } ]

/-- One iteration of the loop in `extractSources`: try to read the source
file from the gemini working tree `gem`; on success write it to the target
path in the tracking working tree and record the name as extracted, on any
access failure record the name as missing.  The accumulator is
(extracted names, missing names, tracking working tree). -/
def extractFile (gem : Fs) (acc : List String × List String × Fs)
    (file : SourceFile) : List String × List String × Fs :=
  match fsLookup gem file.sourcePath with
  | some content => (acc.1 ++ [file.name], acc.2.1, fsWrite acc.2.2 file.targetPath content)
  | none => (acc.1, acc.2.1 ++ [file.name], acc.2.2)

/-- `extractSources` from collect.ts: fold `extractFile` over `SOURCE_FILES`.
`gem` is the external repository's working tree at the currently checked-out
tag; `target` is the tracking repository's working tree. -/
def extractSources (gem : Fs) (target : Fs) : List String × List String × Fs :=
  SOURCE_FILES.foldl (extractFile gem) ([], [], target)

/-- Externally visible git operations performed by a run, recorded as a
trace so that "no checkout / no extraction / no commit" claims are
statements about the trace. -/
inductive Act where
  | checkout (tag : String)
  | extract (tag : String)
  | stage
  | commit (tag : String) (message : String)
  | returnToMain
deriving DecidableEq, Repr

/-- A commit in the tracking repository: its message and the snapshot of
the working tree it recorded. -/
structure Commit where
  message : String
  snapshot : Fs
deriving DecidableEq

/-- The tracking repository (`COLLECTION_REPO_PATH`): working tree,
commit list (newest first), and a flag injecting failure of the
`git log` query used by `isVersionProcessed` (besides the always-failing
case of a repository with no commits). -/
structure TrackingRepo where
  workTree : Fs
  commits : List Commit
  logFails : Bool
deriving DecidableEq

/-- One pattern character of the basic regular expression passed to
`git log --grep`: a dot matches any character, everything else matches
itself (the only metacharacter occurring in `v0.*` tag names). -/
def patCharMatch (p c : Char) : Bool :=
  p = '.' || p = c

/-- Match a whole pattern against a whole character list. -/
def patMatch : List Char → List Char → Bool
  | [], [] => true
  | p :: ps, c :: cs => patCharMatch p c && patMatch ps cs
  | _, _ => false

/-- The pattern `Add metadata for ${version}$` is anchored at end of line:
a line matches when its trailing characters match the pattern. -/
def grepLineMatches (version line : String) : Bool :=
  let pat := ("Add metadata for " ++ version).data
  let l := line.data
  decide (pat.length ≤ l.length) && patMatch pat (l.drop (l.length - pat.length))

/-- `git log --grep` selects the commits one of whose message lines
matches the pattern. -/
def commitMatches (version : String) (c : Commit) : Bool :=
  (strLines c.message).any (grepLineMatches version)

/-- The `git log --oneline --grep="Add metadata for ${version}$"` query
run by `isVersionProcessed`: it fails (execAsync rejects) when the
repository has no commits or the injected failure flag is set; otherwise
it returns the matching commits, whose `--oneline` listing is the stdout
the script inspects (nonempty exactly when some commit matches, since
every listed line carries a hash). -/
def gitLogGrep (repo : TrackingRepo) (version : String) :
    Except Unit (List Commit) :=
  if repo.logFails || repo.commits.isEmpty then Except.error ()
  else Except.ok (repo.commits.filter (commitMatches version))

/-- `isVersionProcessed` from collect.ts: stdout of the grep query is
nonempty, and any query failure is caught and mapped to `false`. -/
def isVersionProcessed (repo : TrackingRepo) (version : String) : Bool :=
  match gitLogGrep repo version with
  | Except.ok ms => !ms.isEmpty
  | Except.error _ => false

/-- The snapshot recorded by the tracking repository's last commit
(empty tree when there are no commits). -/
def headSnapshot (repo : TrackingRepo) : Fs :=
  match repo.commits with
  | [] => ([] : List (String × String))
  | c :: _ => c.snapshot

/-- `git status --porcelain` prints nothing exactly when the working tree
agrees with the last commit; the script only tests whether the trimmed
output is empty, so the model keeps just that bit. -/
def hasUncommittedChanges (repo : TrackingRepo) : Bool :=
  decide (repo.workTree ≠ headSnapshot repo)

/-- The commit message built by `commitChanges` (collect.ts lines
108-118): marker first line, blank line, `Extracted:` section with one
bullet per extracted name, then a `Missing:` section only when the
missing list is nonempty.  The shell-quoting escape applied afterwards
reproduces this exact text in the recorded commit. -/
def commitMessage (tag : String) (extracted missing : List String) : String :=
  if missing.length > 0 then
    missing.foldl (fun m name => m ++ "- " ++ name ++ "\n")
      ((extracted.foldl (fun m name => m ++ "- " ++ name ++ "\n")
        ("Add metadata for " ++ tag ++ "\n\nExtracted:\n")) ++ "\nMissing:\n")
  else
    extracted.foldl (fun m name => m ++ "- " ++ name ++ "\n")
      ("Add metadata for " ++ tag ++ "\n\nExtracted:\n")

/-- `commitChanges` from collect.ts: if `git status --porcelain` reports
nothing, return without touching the repository; otherwise stage
everything (`git add .`) and commit the generated message, the commit
recording the current working tree as its snapshot. -/
def commitChanges (tag : String) (extracted missing : List String)
    (repo : TrackingRepo) : TrackingRepo × List Act :=
  if hasUncommittedChanges repo then
    let msg := commitMessage tag extracted missing
    ({ repo with commits := ⟨msg, repo.workTree⟩ :: repo.commits },
     [Act.stage, Act.commit tag msg])
  else (repo, [])

/-- JavaScript `parseInt(s, 10)`: skip leading whitespace, optional sign,
then the longest digit run; `none` models NaN (no digits found). -/
def parseIntJS (s : String) : Option Int :=
  let cs := s.data.dropWhile (fun c => c.isWhitespace)
  let signed : Int × List Char :=
    match cs with
    | '-' :: t => (-1, t)
    | '+' :: t => (1, t)
    | t => (1, t)
  let digits := signed.2.takeWhile (fun c => c.isDigit)
  if digits.isEmpty then none
  else some (signed.1 *
    (digits.foldl (fun a c => a * 10 + (c.toNat - 48)) 0 : Nat))

/-- Argument parsing for `--start-from=` (collect.ts lines 135-138 plus
the truthiness test on line 151): the first argument with that leading
text, split on `=`, second piece; the empty string is falsy in
JavaScript, so it behaves like an absent flag. -/
def parseStartFrom (argv : List String) : Option String :=
  match argv.find? (fun a => strStartsWith a "--start-from=") with
  | none => none
  | some arg =>
    let v := (splitEq arg).getD 1 ""
    if v = "" then none else some v

/-- Argument parsing for `--limit=` (collect.ts lines 140-143): the first
argument with that leading text, split on `=`, second piece fed to
`parseInt`; NaN is `none`. -/
def parseLimit (argv : List String) : Option Int :=
  match argv.find? (fun a => strStartsWith a "--limit=") with
  | none => none
  | some arg => parseIntJS ((splitEq arg).getD 1 "")

/-- JavaScript `l.slice(0, n)`: for nonnegative `n` the first `n`
elements, for negative `n` everything before index `length + n`. -/
def jsSlice0 (l : List String) (n : Int) : List String :=
  if 0 ≤ n then l.take n.toNat
  else l.take (l.length - min l.length (-n).toNat)

/-- The truncation step `if (limit) tags = tags.slice(0, limit)`
(collect.ts lines 162-165).  Note the JavaScript truthiness test: a
parsed limit of 0 (and NaN, which parses to `none`) leaves the list
untouched. -/
def applyLimit (tags : List String) (limit : Option Int) : List String :=
  match limit with
  | none => tags
  | some n => if n = 0 then tags else jsSlice0 tags n

/-- JavaScript `l.indexOf(v)`: index of the first occurrence, `-1` when
absent. -/
def jsIndexOf (l : List String) (v : String) : Int :=
  match l with
  | [] => -1
  | a :: t =>
    if a = v then 0
    else
      let r := jsIndexOf t v
      if r = -1 then -1 else r + 1

/-- The start-from filter (collect.ts lines 150-159): when the flag is
present, `indexOf` the version in the enumerated list; `-1` aborts the
run with exit code 1 (`none`), otherwise keep the suffix from the first
occurrence (`tags.slice(startIndex)`). -/
def startFilter (allTags : List String) (sf : Option String) :
    Option (List String) :=
  match sf with
  | none => some allTags
  | some v =>
    let idx := jsIndexOf allTags v
    if idx = -1 then none else some (allTags.drop idx.toNat)

/-- The tag list actually iterated by the per-tag loop: the enumeration
after the start-from filter (fatal `none` when the start tag is absent)
and then the limit truncation. -/
def selectedTags (allTags : List String) (argv : List String) :
    Option (List String) :=
  (startFilter allTags (parseStartFrom argv)).map
    (fun ts => applyLimit ts (parseLimit argv))

/-- The ambient state a run touches: the raw `git tag --sort=creatordate`
output lines of the external repository, its working tree contents at
each tag, an oracle saying which `git checkout <tag>` invocations fail
(dirty tree, missing tag, ...), the ref it currently has checked out,
and the tracking repository. -/
structure World where
  tags : List String
  gemini : String → Fs
  checkoutFails : String → Bool
  geminiRef : String
  tracking : TrackingRepo

/-- `getAllTags` from collect.ts: the tag listing filtered to names
starting with `v0.` (the listing is already sorted by creation date). -/
def getAllTags (w : World) : List String :=
  w.tags.filter (fun t => strStartsWith t "v0.")

/-- One iteration of the per-tag loop (collect.ts lines 168-201): skip
when the ledger check says the tag is already processed; otherwise
attempt the checkout (a failure is caught at the per-tag boundary,
logged, and leaves the state as the failed command left it), then
extract the source files at that tag and run the commit step. -/
def processTag (w : World) (tag : String) : World × List Act :=
  if isVersionProcessed w.tracking tag then (w, [])
  else if w.checkoutFails tag then (w, [Act.checkout tag])
  else
    let res := extractSources (w.gemini tag) w.tracking.workTree
    let tr1 : TrackingRepo := { w.tracking with workTree := res.2.2 }
    let cc := commitChanges tag res.1 res.2.1 tr1
    ({ w with geminiRef := tag, tracking := cc.1 },
     Act.checkout tag :: Act.extract tag :: cc.2)

/-- The per-tag loop over the selected tag list, threading the world and
concatenating the traces. -/
def processTags : World → List String → World × List Act
  | w, [] => (w, [])
  | w, t :: rest =>
    let r1 := processTag w t
    let r2 := processTags r1.1 rest
    (r2.1, r1.2 ++ r2.2)

/-- Outcome of a whole run: the process exit code, the final ambient
state, and the trace of git operations performed. -/
structure RunResult where
  exitCode : Nat
  world : World
  actions : List Act

/-- `main` from collect.ts: parse the flags, enumerate and filter the
tags (exit 1 before any checkout when the start tag is absent), run the
per-tag loop, then unconditionally return the external repository to its
`main` branch. -/
def runMain (w : World) (argv : List String) : RunResult :=
  match selectedTags (getAllTags w) argv with
  | none => ⟨1, w, []⟩
  | some tags =>
    let r := processTags w tags
    ⟨0, { r.1 with geminiRef := "main" }, r.2 ++ [Act.returnToMain]⟩

/-- The bullet block `- name\n` per name, as appended by the two
`forEach` loops in `commitChanges`. -/
def bulletLines : List String → String
  | [] => ""
  | n :: ns => "- " ++ n ++ "\n" ++ bulletLines ns

theorem foldl_bullet (l : List String) (base : String) :
    l.foldl (fun m name => m ++ "- " ++ name ++ "\n") base =
      base ++ bulletLines l := by
  induction l generalizing base with
  | nil => simp [bulletLines]
  | cons n ns ih =>
    show List.foldl _ (base ++ "- " ++ n ++ "\n") ns = _
    rw [ih]
    simp [bulletLines, String.append_assoc]

/-- Closed form of the generated commit message: marker line, blank
line, `Extracted:` block, and a `Missing:` block only when the missing
list is nonempty. -/
theorem commitMessage_shape (tag : String) (extracted missing : List String) :
    commitMessage tag extracted missing =
      "Add metadata for " ++ tag ++ "\n\nExtracted:\n" ++ bulletLines extracted ++
        (if missing = [] then "" else "\nMissing:\n" ++ bulletLines missing) := by
  cases missing with
  | nil =>
    unfold commitMessage
    rw [if_neg (by simp), foldl_bullet]
    simp [String.append_assoc]
  | cons m ms =>
    unfold commitMessage
    rw [if_pos (by simp), foldl_bullet, foldl_bullet]
    rw [if_neg (by simp)]
    simp [String.append_assoc]

/-- Claim C3: for every tag, extracted list, and missing list, the
generated commit message is the marker line `Add metadata for <tag>`, a
blank line, an `Extracted:` section with one `- <label>` bullet per
extracted label in order, and a `Missing:` section with one bullet per
missing label exactly when the missing list is nonempty (omitted
entirely when it is empty); in particular, for extracted
`["Core prompts"]`, missing `["Tool registry"]` and tag `v0.5.0` the
message's lines are the marker, a blank, `Extracted:` with exactly
`- Core prompts`, a blank, and `Missing:` with exactly
`- Tool registry`. -/
theorem claim_C3_commit_message :
    (∀ (tag : String) (extracted missing : List String),
      commitMessage tag extracted missing =
        "Add metadata for " ++ tag ++ "\n\nExtracted:\n" ++
          bulletLines extracted ++
          (if missing = [] then "" else "\nMissing:\n" ++ bulletLines missing)) ∧
    strLines (commitMessage "v0.5.0" ["Core prompts"] ["Tool registry"]) =
      ["Add metadata for v0.5.0", "", "Extracted:", "- Core prompts", "",
       "Missing:", "- Tool registry", ""] :=
  ⟨commitMessage_shape, by decide⟩

/-- Claim C10: the `Extracted:` header is always part of the message,
even for an empty extracted list, while the `Missing:` header appears
exactly when the missing list is nonempty and is dropped together with
its bullets when it is empty. -/
theorem claim_C10_sections (tag : String) (extracted missing : List String) :
    (∃ rest, commitMessage tag extracted missing =
        "Add metadata for " ++ tag ++ "\n\nExtracted:\n" ++ rest) ∧
    (missing ≠ [] → commitMessage tag extracted missing =
        "Add metadata for " ++ tag ++ "\n\nExtracted:\n" ++
          bulletLines extracted ++ ("\nMissing:\n" ++ bulletLines missing)) ∧
    (missing = [] → commitMessage tag extracted missing =
        "Add metadata for " ++ tag ++ "\n\nExtracted:\n" ++
          bulletLines extracted) := by
  refine ⟨⟨bulletLines extracted ++
      (if missing = [] then "" else "\nMissing:\n" ++ bulletLines missing), ?_⟩,
    ?_, ?_⟩
  · rw [commitMessage_shape]
    simp [String.append_assoc]
  · intro h
    rw [commitMessage_shape, if_neg h]
  · intro h
    rw [commitMessage_shape, if_pos h]
    simp [String.append_assoc]

theorem claim_C10_sections_witness :
    commitMessage "v0.1.0" [] ["Tool registry"] =
      "Add metadata for " ++ "v0.1.0" ++ "\n\nExtracted:\n" ++
        bulletLines [] ++ ("\nMissing:\n" ++ bulletLines ["Tool registry"]) :=
  (claim_C10_sections "v0.1.0" [] ["Tool registry"]).2.1 (by decide)

/-- Claim C7: when the commit-history query underlying the
already-processed check fails (for example because the tracking
repository has no commits yet), `isVersionProcessed` answers `false`
instead of propagating the error. -/
theorem claim_C7_fail_open (repo : TrackingRepo) (version : String)
    (h : gitLogGrep repo version = Except.error ()) :
    isVersionProcessed repo version = false := by
  simp [isVersionProcessed, h]

/-- A fresh tracking repository: empty working tree, no commits. -/
def exFreshRepo : TrackingRepo :=
  ⟨([] : List (String × String)), [], false⟩

theorem claim_C7_fail_open_witness :
    gitLogGrep exFreshRepo "v0.1.0" = Except.error () ∧
    isVersionProcessed exFreshRepo "v0.1.0" = false :=
  ⟨rfl, claim_C7_fail_open exFreshRepo "v0.1.0" rfl⟩

/-- Claim C8: when `git status --porcelain` reports no uncommitted
changes, `commitChanges` performs no staging and no commit and leaves
the tracking repository untouched. -/
theorem claim_C8_no_changes_no_commit (tag : String)
    (extracted missing : List String) (repo : TrackingRepo)
    (h : hasUncommittedChanges repo = false) :
    commitChanges tag extracted missing repo = (repo, []) := by
  simp [commitChanges, h]

theorem claim_C8_no_changes_no_commit_witness :
    commitChanges "v0.1.0" ["Core prompts"] [] exFreshRepo =
      (exFreshRepo, []) :=
  claim_C8_no_changes_no_commit "v0.1.0" ["Core prompts"] [] exFreshRepo rfl

theorem patCharMatch_refl (c : Char) : patCharMatch c c = true := by
  simp [patCharMatch]

theorem patMatch_refl (l : List Char) : patMatch l l = true := by
  induction l with
  | nil => rfl
  | cons c cs ih => simp [patMatch, patCharMatch_refl, ih]

/-- A line that is exactly the marker text matches the end-anchored grep
pattern. -/
theorem grepLineMatches_marker (version : String) :
    grepLineMatches version ("Add metadata for " ++ version) = true := by
  simp [grepLineMatches, Nat.sub_self, patMatch_refl]

/-- A commit whose first message line is exactly the marker is selected
by the grep query. -/
theorem commitMatches_of_marker_head (version : String) (c : Commit)
    (h : (strLines c.message).head? = some ("Add metadata for " ++ version)) :
    commitMatches version c = true := by
  unfold commitMatches
  cases hs : strLines c.message with
  | nil => rw [hs] at h; simp at h
  | cons x xs =>
    rw [hs] at h
    simp only [List.head?_cons, Option.some.injEq] at h
    subst h
    simp [List.any_cons, grepLineMatches_marker]

/-- When the log query succeeds and some commit's first line is exactly
the marker, the ledger check reports the version as processed. -/
theorem isVersionProcessed_of_marker (repo : TrackingRepo) (version : String)
    (hlog : repo.logFails = false) (c : Commit) (hmem : c ∈ repo.commits)
    (h : (strLines c.message).head? = some ("Add metadata for " ++ version)) :
    isVersionProcessed repo version = true := by
  have hne : repo.commits ≠ [] := List.ne_nil_of_mem hmem
  have hmatch := commitMatches_of_marker_head version c h
  have hfil : c ∈ repo.commits.filter (commitMatches version) :=
    List.mem_filter.mpr ⟨hmem, hmatch⟩
  have hfne : repo.commits.filter (commitMatches version) ≠ [] :=
    List.ne_nil_of_mem hfil
  unfold isVersionProcessed gitLogGrep
  rw [hlog]
  simp [List.isEmpty_iff, hne, hfne]

/-- Claim C1: when the tracking repository already holds a commit whose
first message line is exactly `Add metadata for <tag>` (and the ledger
query does not fail), the per-tag loop body detects the marker and skips
the tag: no checkout, no extraction, no commit, and the state is
untouched. -/
theorem claim_C1_idempotent_skip (w : World) (tag : String)
    (hlog : w.tracking.logFails = false)
    (hc : ∃ c ∈ w.tracking.commits,
        (strLines c.message).head? = some ("Add metadata for " ++ tag)) :
    processTag w tag = (w, []) := by
  obtain ⟨c, hmem, hline⟩ := hc
  have hp := isVersionProcessed_of_marker w.tracking tag hlog c hmem hline
  simp [processTag, hp]

/-- A commit recording v0.1.0, and a world whose tracking repository
already holds it. -/
def exMarkerCommit : Commit :=
  ⟨"Add metadata for v0.1.0\n\nExtracted:\n- Core prompts\n",
   ([("prompts/prompts.ts", "content")] : List (String × String))⟩

def exProcessedWorld : World where
  tags := ["v0.1.0"]
  gemini := fun _ => ([] : List (String × String))
  checkoutFails := fun _ => false
  geminiRef := "main"
  tracking := ⟨([("prompts/prompts.ts", "content")] : List (String × String)),
    [exMarkerCommit], false⟩

theorem claim_C1_idempotent_skip_witness :
    processTag exProcessedWorld "v0.1.0" = (exProcessedWorld, []) :=
  claim_C1_idempotent_skip exProcessedWorld "v0.1.0" rfl
    ⟨exMarkerCommit, by decide, by decide⟩

/-- Claim C4: when a configured source file is readable at the
currently checked-out tag, the extractor leaves the destination path
holding exactly the source file's content. -/
theorem claim_C4_extracted_content (gem target : Fs) (file : SourceFile)
    (content : String) (hmem : file ∈ SOURCE_FILES)
    (hsrc : fsLookup gem file.sourcePath = some content) :
    fsLookup (extractSources gem target).2.2 file.targetPath = some content := by
  simp only [SOURCE_FILES, List.mem_cons, List.mem_singleton,
    List.not_mem_nil, or_false] at hmem
  rcases hmem with h | h
  · subst h
    simp only [extractSources, SOURCE_FILES, List.foldl] at hsrc ⊢
    cases h2 : fsLookup gem "packages/core/src/tools/tool-registry.ts" with
    | none => simp [extractFile, hsrc, h2, fsLookup_fsWrite]
    | some c2 => simp [extractFile, hsrc, h2, fsLookup_fsWrite]
  · subst h
    simp only [extractSources, SOURCE_FILES, List.foldl] at hsrc ⊢
    cases h1 : fsLookup gem "packages/core/src/core/prompts.ts" with
    | none => simp [extractFile, hsrc, h1, fsLookup_fsWrite]
    | some c1 => simp [extractFile, hsrc, h1, fsLookup_fsWrite]

/-- A gemini working tree holding only the prompts source file. -/
def exGeminiTree : Fs :=
  ([("packages/core/src/core/prompts.ts", "PROMPTS")] :
    List (String × String))

theorem claim_C4_extracted_content_witness :
    fsLookup (extractSources exGeminiTree ([] : List (String × String))).2.2
        "prompts/prompts.ts" = some "PROMPTS" :=
  claim_C4_extracted_content exGeminiTree ([] : List (String × String))
    { sourcePath := "packages/core/src/core/prompts.ts",
      targetPath := "prompts/prompts.ts",
      name := "Core prompts" }
    "PROMPTS" (by decide) (by decide)

/-- Claim C9: the extractor partitions the configured specs — the
extracted and missing label lists are the labels of the present and
absent source files respectively, in declaration order, their lengths
sum to the number of specs, and each spec's label lands in exactly one
of the two lists. -/
theorem claim_C9_partition (gem target : Fs) :
    (extractSources gem target).1 =
      (SOURCE_FILES.filter
        (fun f => (fsLookup gem f.sourcePath).isSome)).map
        (fun f => f.name) ∧
    (extractSources gem target).2.1 =
      (SOURCE_FILES.filter
        (fun f => !(fsLookup gem f.sourcePath).isSome)).map
        (fun f => f.name) ∧
    (extractSources gem target).1.length +
        (extractSources gem target).2.1.length = SOURCE_FILES.length ∧
    ∀ f ∈ SOURCE_FILES,
      (f.name ∈ (extractSources gem target).1 ∧
        f.name ∉ (extractSources gem target).2.1) ∨
      (f.name ∉ (extractSources gem target).1 ∧
        f.name ∈ (extractSources gem target).2.1) := by
  cases h1 : fsLookup gem "packages/core/src/core/prompts.ts" <;>
    cases h2 : fsLookup gem "packages/core/src/tools/tool-registry.ts" <;>
      refine ⟨?_, ?_, ?_, ?_⟩ <;>
        simp [extractSources, extractFile, SOURCE_FILES, h1, h2]

theorem jsIndexOf_of_not_mem (l : List String) (v : String) (hv : v ∉ l) :
    jsIndexOf l v = -1 := by
  induction l with
  | nil => rfl
  | cons a t ih =>
    have ha : ¬ a = v := fun h => hv (h ▸ List.mem_cons_self a t)
    have ht : v ∉ t := fun h => hv (List.mem_cons_of_mem a h)
    simp [jsIndexOf, ha, ih ht]

theorem jsIndexOf_of_mem (l : List String) (v : String) (hv : v ∈ l) :
    ∃ i : Nat, jsIndexOf l v = (i : Int) ∧ (l.drop i).head? = some v := by
  induction l with
  | nil => simp at hv
  | cons a t ih =>
    by_cases ha : a = v
    · exact ⟨0, by simp [jsIndexOf, ha], by simp [ha]⟩
    · have ht : v ∈ t := by
        rcases List.mem_cons.mp hv with h | h
        · exact absurd h.symm ha
        · exact h
      obtain ⟨i, hfi, hh⟩ := ih ht
      refine ⟨i + 1, ?_, ?_⟩
      · have hne : jsIndexOf t v ≠ -1 := by rw [hfi]; omega
        simp [jsIndexOf, ha, hfi, hne]
      · simpa using hh

/-- Claim C5: when `--start-from=<tag>` names a tag absent from the
enumerated list, the run exits with code 1 having performed no checkout,
extraction, or commit and leaving the state untouched; when the tag is
present, the loop's tag list is the suffix of the enumeration starting
at that tag (inclusively). -/
theorem claim_C5_start_from (w : World) (argv : List String) (v : String)
    (hv : parseStartFrom argv = some v) :
    (v ∉ getAllTags w → runMain w argv = ⟨1, w, []⟩) ∧
    (v ∈ getAllTags w → ∃ ts0, startFilter (getAllTags w) (some v) = some ts0 ∧
        ts0.head? = some v ∧ ∃ s, s ++ ts0 = getAllTags w) := by
  constructor
  · intro hnm
    have hidx := jsIndexOf_of_not_mem (getAllTags w) v hnm
    simp [runMain, selectedTags, hv, startFilter, hidx]
  · intro hm
    obtain ⟨i, hfi, hh⟩ := jsIndexOf_of_mem (getAllTags w) v hm
    refine ⟨(getAllTags w).drop i, ?_, hh, (getAllTags w).take i,
      List.take_append_drop i (getAllTags w)⟩
    have hne : jsIndexOf (getAllTags w) v ≠ -1 := by rw [hfi]; omega
    simp [startFilter, hne, hfi]

/-- A world with one enumerated tag and nothing processed yet. -/
def exFreshWorld : World where
  tags := ["v0.1.0"]
  gemini := fun _ => exGeminiTree
  checkoutFails := fun _ => false
  geminiRef := "main"
  tracking := exFreshRepo

theorem claim_C5_start_from_witness :
    runMain exFreshWorld ["--start-from=v0.9.9"] = ⟨1, exFreshWorld, []⟩ ∧
    (∃ ts0, startFilter (getAllTags exFreshWorld) (some "v0.1.0") = some ts0 ∧
        ts0.head? = some "v0.1.0" ∧ ∃ s, s ++ ts0 = getAllTags exFreshWorld) :=
  ⟨(claim_C5_start_from exFreshWorld ["--start-from=v0.9.9"] "v0.9.9"
      (by decide)).1 (by decide),
   (claim_C5_start_from exFreshWorld ["--start-from=v0.1.0"] "v0.1.0"
      (by decide)).2 (by decide)⟩

theorem getLast_app_single (l : List Act) (a : Act) :
    (l ++ [a]).getLast? = some a :=
  List.getLast?_append_cons l a []

/-- Claim C6: a checkout failure on a tag is contained at the per-tag
boundary — the tag's iteration stops after the failed checkout, the
state is as the failed command left it, and the loop processes the
remaining tags exactly as it would have from that state; and every run
that reaches the loop ends by returning the external repository to its
`main` branch, whatever happened inside the loop. -/
theorem claim_C6_error_containment :
    (∀ (w : World) (t : String) (rest : List String),
        isVersionProcessed w.tracking t = false →
        w.checkoutFails t = true →
        processTags w (t :: rest) =
          ((processTags w rest).1,
            Act.checkout t :: (processTags w rest).2)) ∧
    (∀ (w : World) (argv : List String),
        (runMain w argv).exitCode = 0 →
        (runMain w argv).actions.getLast? = some Act.returnToMain ∧
        (runMain w argv).world.geminiRef = "main") := by
  constructor
  · intro w t rest hnp hf
    simp [processTags, processTag, hnp, hf]
  · intro w argv h0
    cases hsel : selectedTags (getAllTags w) argv with
    | none => simp [runMain, hsel] at h0
    | some tags =>
      simp only [runMain, hsel]
      constructor
      · exact getLast_app_single _ _
      · trivial

/-- A fresh world whose single tag's checkout fails. -/
def exFailingWorld : World where
  tags := ["v0.1.0"]
  gemini := fun _ => exGeminiTree
  checkoutFails := fun t => t = "v0.1.0"
  geminiRef := "main"
  tracking := exFreshRepo

theorem claim_C6_error_containment_witness :
    processTags exFailingWorld ["v0.1.0"] =
      ((processTags exFailingWorld []).1,
        Act.checkout "v0.1.0" :: (processTags exFailingWorld []).2) ∧
    ((runMain exFailingWorld []).actions.getLast? = some Act.returnToMain ∧
      (runMain exFailingWorld []).world.geminiRef = "main") :=
  ⟨claim_C6_error_containment.1 exFailingWorld "v0.1.0" [] rfl (by decide),
   claim_C6_error_containment.2 exFailingWorld [] rfl⟩

/-- Claim C2, counterexample: with the numeric argument `--limit=0` and
one enumerated tag, the JavaScript truthiness test `if (limit)` treats
the parsed 0 as "no limit", so the loop's tag list keeps its single tag
and the run performs a checkout — more than the claimed
min(0, 1) = 0 processed tags. -/
theorem claim_C2_limit_counterexample :
    parseLimit ["--limit=0"] = some 0 ∧
    selectedTags ["v0.1.0"] ["--limit=0"] = some ["v0.1.0"] ∧
    (selectedTags ["v0.1.0"] ["--limit=0"]).map List.length = some 1 ∧
    ¬ (1 ≤ min 0 1) ∧
    (runMain exFreshWorld ["--limit=0"]).actions.head? =
      some (Act.checkout "v0.1.0") :=
  ⟨by decide, by decide, by decide, by decide, by decide⟩

theorem startFilter_sub (allTags : List String) (sf : Option String)
    (ts0 : List String) (h : startFilter allTags sf = some ts0) :
    ts0.Sublist allTags := by
  cases sf with
  | none =>
    simp only [startFilter, Option.some.injEq] at h
    exact h ▸ List.Sublist.refl allTags
  | some v =>
    simp only [startFilter] at h
    by_cases hi : jsIndexOf allTags v = -1
    · simp [hi] at h
    · simp only [hi, if_false] at h
      obtain rfl : allTags.drop (jsIndexOf allTags v).toNat = ts0 :=
        Option.some.inj h
      exact List.drop_sublist _ _

/-- Claim C2, amended: for every numeric limit N ≥ 1 the loop's tag
list has at most min(N, |T|) entries, is an initial segment of the
start-from-filtered list (so truncation happens after that filter), and
keeps the relative order of the unfiltered enumeration.  (The original
claim quantified over every numeric N; it fails at N = 0, which the
JavaScript truthiness test silently ignores.) -/
theorem claim_C2_limit_amended (allTags argv : List String) (N : Int)
    (ts0 ts : List String) (hN : 1 ≤ N)
    (hL : parseLimit argv = some N)
    (hS : startFilter allTags (parseStartFrom argv) = some ts0)
    (hsel : selectedTags allTags argv = some ts) :
    ts.length ≤ min N.toNat allTags.length ∧
    (∃ t, ts ++ t = ts0) ∧ ts.Sublist allTags := by
  have hts : ts = ts0.take N.toNat := by
    simp only [selectedTags, hS, Option.map_some'] at hsel
    have hN0 : ¬ N = 0 := by omega
    have hNpos : (0 : Int) ≤ N := by omega
    simp only [applyLimit, hL, hN0, if_false, jsSlice0, hNpos, if_pos] at hsel
    exact (Option.some.inj hsel).symm
  have hsub0 : ts0.Sublist allTags := startFilter_sub allTags _ ts0 hS
  subst hts
  refine ⟨?_, ⟨ts0.drop N.toNat, List.take_append_drop _ _⟩, ?_⟩
  · calc (ts0.take N.toNat).length = min N.toNat ts0.length := by
          simp [List.length_take]
      _ ≤ min N.toNat allTags.length :=
          min_le_min (le_refl _) hsub0.length_le
  · exact (List.take_sublist _ _).trans hsub0

theorem claim_C2_limit_amended_witness :
    (["v0.2.0"] : List String).length ≤
        min (Int.toNat 1) (["v0.1.0", "v0.2.0", "v0.3.0"] : List String).length ∧
    (∃ t, ["v0.2.0"] ++ t = (["v0.2.0", "v0.3.0"] : List String)) ∧
    (["v0.2.0"] : List String).Sublist ["v0.1.0", "v0.2.0", "v0.3.0"] :=
  claim_C2_limit_amended ["v0.1.0", "v0.2.0", "v0.3.0"]
    ["--start-from=v0.2.0", "--limit=1"] 1 ["v0.2.0", "v0.3.0"] ["v0.2.0"]
    (by decide) (by decide) (by decide) (by decide)

theorem claim_C9_partition_witness :
    (extractSources exGeminiTree ([] : List (String × String))).1 =
        ["Core prompts"] ∧
    (extractSources exGeminiTree ([] : List (String × String))).2.1 =
        ["Tool registry"] :=
  ⟨by
    have h := (claim_C9_partition exGeminiTree
      ([] : List (String × String))).1
    rw [h]; decide,
   by
    have h := (claim_C9_partition exGeminiTree
      ([] : List (String × String))).2.1
    rw [h]; decide⟩
